import Mathlib

/-!
Verification of the YouTube-to-Drive mirroring script (src/main.py).

The script is embedded shallowly:
- Timestamps are integers counting seconds. The Python comparison
  `created_time < datetime.datetime.now() - datetime.timedelta(days=days)`
  becomes integer arithmetic with 86400 seconds per day.
- The Drive listing is a list of files with id, name and creation time.
- The YouTube metadata API is a pair of abstract functions giving, per
  channel, the uploads playlist, and per playlist, the item list that the
  API returns for a given maxResults.
- The per-video transfer (download, upload, scratch deletion) is modelled
  by an environment assigning to each URL the success or failure of each
  step; the sync loop of `main` becomes a recursive function threading the
  in-memory history list and emitting a trace of events (skip, transfer
  success, transfer failure, channel-level error).
-/

/-- A file as returned by the Drive list call: id, name, createdTime. -/
structure DriveFile where
  id : String
  name : String
  createdTime : Int
deriving Repr, DecidableEq

/-- `is_older_than_days` from main.py: the parsed createdTime is strictly
before `now` minus `days` days (86400 seconds each). -/
def is_older_than_days (created : Int) (now : Int) (days : Int) : Bool :=
  created < now - days * 86400

/-- `delete_old_videos` from main.py: the files of the parent folder for
which a delete is issued, namely those satisfying `is_older_than_days`.
The decision reads only the creation time, never the name. -/
def delete_old_videos (now : Int) (days : Int) (files : List DriveFile) : List DriveFile :=
  files.filter (fun f => is_older_than_days f.createdTime now days)

/-- The files still present after the retention sweep: those the sweep did
not delete. -/
def remaining_files (now : Int) (days : Int) (files : List DriveFile) : List DriveFile :=
  files.filter (fun f => !(is_older_than_days f.createdTime now days))

/-- The lookup step of `download_channels_list_from_drive`: the Drive query
filters on the exact name channels.json inside the parent folder and the
code takes `items[0]`, here `head?`. -/
def find_channels_file (files : List DriveFile) : Option DriveFile :=
  (files.filter (fun f => f.name == "channels.json")).head?

/-- `download_channels_list_from_drive` from main.py: `None` when no file
named channels.json exists in the folder, otherwise the parsed JSON content
of the found file, supplied by the abstract `contentOf` map from file id to
channel identifier list. -/
def download_channels_list_from_drive (files : List DriveFile)
    (contentOf : String → List String) : Option (List String) :=
  match find_channels_file files with
  | none => none
  | some f => some (contentOf f.id)

/-- One item of a playlistItems.list response: snippet.resourceId.videoId
and snippet.title. -/
structure PlaylistItem where
  videoId : String
  title : String
deriving Repr, DecidableEq

/-- The YouTube metadata API as used by `get_latest_video_url`:
`uploadsPlaylistOf c` is `none` when `channels.list(id=c)` returns no items,
otherwise the uploads playlist id from the first item; `playlistItemsList p n`
is the item list of `playlistItems.list(playlistId=p, maxResults=n)`, in
API-native order. -/
structure YoutubeApi where
  uploadsPlaylistOf : String → Option String
  playlistItemsList : String → Nat → List PlaylistItem

/-- `get_latest_video_url` from main.py. An empty channel id fails the
Python truthiness check; a channel without items is not found; an empty
item list means the channel has no videos; fewer than `last_n` items makes
the `range(last_n)` indexing raise IndexError, caught by the generic
handler; otherwise the first `last_n` items are mapped to
(watch URL built from videoId, title) pairs in API order. -/
def get_latest_video_url (api : YoutubeApi) (channel_id : String) (last_n : Nat) :
    Except String (List (String × String)) :=
  if channel_id = "" then
    Except.error "Could not extract channel identifier from URL"
  else
    match api.uploadsPlaylistOf channel_id with
    | none => Except.error ("No channel found with ID: " ++ channel_id)
    | some pid =>
      let items := api.playlistItemsList pid last_n
      if items.isEmpty then
        Except.error "Channel has no videos"
      else if items.length < last_n then
        Except.error "An unexpected error occurred: list index out of range"
      else
        Except.ok ((items.take last_n).map
          (fun it => ("https://www.youtube.com/watch?v=" ++ it.videoId, it.title)))

/-- One stream offered for a video, with the attributes `download_video`
consults: whether it is progressive, its container, and the numeric value
of its resolution label (480 stands for the label 480p). -/
structure YTStream where
  progressive : Bool
  file_extension : String
  resolution : Nat
deriving Repr, DecidableEq

/-- The filter step of `download_video`: progressive streams in the mp4
container. -/
def progressive_mp4 (ss : List YTStream) : List YTStream :=
  ss.filter (fun s => s.progressive && s.file_extension == "mp4")

/-- The `order_by(resolution)` step: ascending stable sort by resolution
(Python sorted is stable; any stable sort models it). -/
def order_by_resolution (ss : List YTStream) : List YTStream :=
  ss.insertionSort (fun a b => a.resolution ≤ b.resolution)

/-- The stream selection of `download_video`: among progressive mp4 streams
ordered ascending by resolution, the first with resolution label 480p, and
when there is none, the first stream of the ordered list. -/
def select_stream (ss : List YTStream) : Option YTStream :=
  let streams := order_by_resolution (progressive_mp4 ss)
  match (streams.filter (fun s => s.resolution == 480)).head? with
  | some s => some s
  | none => streams.head?

/-- A video record produced by the resolver: URL and title. -/
structure Video where
  url : String
  title : String
deriving Repr, DecidableEq

/-- The outcome of each step of the transfer pipeline for one URL:
stream resolution, download, upload, and scratch file deletion. -/
structure TransferSteps where
  resolveOk : Bool
  downloadOk : Bool
  uploadOk : Bool
  removeOk : Bool
deriving Repr, DecidableEq

/-- The whole transfer succeeds when every step does; any step raising
makes the inner try of `main` catch the exception. -/
def transferOk (st : TransferSteps) : Bool :=
  st.resolveOk && st.downloadOk && st.uploadOk && st.removeOk

/-- Observable actions of one run of the sync loop. -/
inductive Event where
  | channelError (msg : String)
  | skip (url : String)
  | transferFailure (url : String)
  | transferSuccess (url : String)
deriving Repr, DecidableEq

/-- The inner loop of `main` over the videos of one channel: a URL already
in the history list is skipped; otherwise the transfer runs, and only a
fully successful transfer appends the URL to the history; a failing
transfer leaves the history as it was and the loop continues with the next
video. -/
def processChannel (env : String → TransferSteps) :
    List Video → List String → List String × List Event
  | [], hist => (hist, [])
  | v :: vs, hist =>
    if v.url ∈ hist then
      let r := processChannel env vs hist
      (r.1, Event.skip v.url :: r.2)
    else if transferOk (env v.url) then
      let r := processChannel env vs (hist ++ [v.url])
      (r.1, Event.transferSuccess v.url :: r.2)
    else
      let r := processChannel env vs hist
      (r.1, Event.transferFailure v.url :: r.2)

/-- The result of resolving one channel: the video list, or the error the
resolver reported, which the outer try of `main` turns into a log line and
a continue. -/
abbrev ChannelResult := Except String (List Video)

/-- The outer loop of `main` over the channel list: a resolver error skips
the channel, a resolved channel runs the per-video loop on the current
history, and the loop continues with the next channel on the updated
history. -/
def processChannels (env : String → TransferSteps) :
    List ChannelResult → List String → List String × List Event
  | [], hist => (hist, [])
  | Except.error msg :: cs, hist =>
    let r := processChannels env cs hist
    (r.1, Event.channelError msg :: r.2)
  | Except.ok vids :: cs, hist =>
    let r1 := processChannel env vids hist
    let r2 := processChannels env cs r1.1
    (r2.1, r1.2 ++ r2.2)

/-- The observable outcome of a run: the content written back to
past_videos.json (`none` when the file is not written) and the event
trace. -/
structure RunResult where
  persisted : Option (List String)
  events : List Event
deriving Repr, DecidableEq

/-- `main` after the retention sweep: when the catalog loader returned
`None`, the run ends at once, reading and writing no history file and
touching no channel; otherwise the history file must exist (a missing file
raises out of the run), the channels are resolved and processed, and the
final history is written back. -/
def mainRun (catalog : Option (List String)) (resolve : String → ChannelResult)
    (histFile : Option (List String)) (env : String → TransferSteps) :
    Except String RunResult :=
  match catalog with
  | none => Except.ok { persisted := none, events := [] }
  | some ids =>
    match histFile with
    | none => Except.error "FileNotFoundError: past_videos.json"
    | some hist0 =>
      let r := processChannels env (ids.map resolve) hist0
      Except.ok { persisted := some r.1, events := r.2 }

/-- A whole invocation of `main`: the retention sweep runs first over the
folder listing, then the catalog loader looks for channels.json among the
files that survived it, then `mainRun`. -/
def fullRun (now : Int) (days : Int) (files : List DriveFile)
    (contentOf : String → List String) (resolve : String → ChannelResult)
    (histFile : Option (List String)) (env : String → TransferSteps) :
    Except String RunResult :=
  mainRun (download_channels_list_from_drive (remaining_files now days files) contentOf)
    resolve histFile env

/-- Recognizes a transfer-pipeline invocation (successful or not) for the
given URL. -/
def isTransferFor (u : String) : Event → Bool
  | Event.transferSuccess v => v == u
  | Event.transferFailure v => v == u
  | _ => false

/-- Recognizes a successful transfer of the given URL. -/
def isSuccessFor (u : String) : Event → Bool
  | Event.transferSuccess v => v == u
  | _ => false

/-- Recognizes any transfer-pipeline invocation. -/
def isTransfer : Event → Bool
  | Event.transferSuccess _ => true
  | Event.transferFailure _ => true
  | _ => false

/-- Recognizes a failed transfer. -/
def isFailure : Event → Bool
  | Event.transferFailure _ => true
  | _ => false

/-- The per-video loop only appends to the history list. -/
theorem processChannel_fst_append (env : String → TransferSteps) (vids : List Video)
    (hist : List String) : ∃ ext, (processChannel env vids hist).1 = hist ++ ext := by
  induction vids generalizing hist with
  | nil => exact ⟨[], (List.append_nil hist).symm⟩
  | cons v vs ih =>
    by_cases hv : v.url ∈ hist
    · simpa [processChannel, hv] using ih hist
    · by_cases hok : transferOk (env v.url)
      · obtain ⟨ext, hext⟩ := ih (hist ++ [v.url])
        exact ⟨v.url :: ext, by simp [processChannel, hv, hok, hext]⟩
      · simpa [processChannel, hv, hok] using ih hist

/-- The per-channel loop only appends to the history list. -/
theorem processChannels_fst_append (env : String → TransferSteps)
    (chans : List ChannelResult) (hist : List String) :
    ∃ ext, (processChannels env chans hist).1 = hist ++ ext := by
  induction chans generalizing hist with
  | nil => exact ⟨[], (List.append_nil hist).symm⟩
  | cons c cs ih =>
    cases c with
    | error msg => simpa [processChannels] using ih hist
    | ok vids =>
      obtain ⟨e1, h1⟩ := processChannel_fst_append env vids hist
      obtain ⟨e2, h2⟩ := ih ((processChannel env vids hist).1)
      refine ⟨e1 ++ e2, ?_⟩
      simp only [processChannels]
      rw [h2, h1, List.append_assoc]

/-- A URL in the history stays there through the per-video loop. -/
theorem mem_processChannel_fst {u : String} (env : String → TransferSteps)
    (vids : List Video) (hist : List String) (h : u ∈ hist) :
    u ∈ (processChannel env vids hist).1 := by
  obtain ⟨ext, hext⟩ := processChannel_fst_append env vids hist
  rw [hext]; exact List.mem_append_left ext h

/-- A URL in the history stays there through the per-channel loop. -/
theorem mem_processChannels_fst {u : String} (env : String → TransferSteps)
    (chans : List ChannelResult) (hist : List String) (h : u ∈ hist) :
    u ∈ (processChannels env chans hist).1 := by
  obtain ⟨ext, hext⟩ := processChannels_fst_append env chans hist
  rw [hext]; exact List.mem_append_left ext h

/-- A URL already in the history is never given to the transfer pipeline by
the per-video loop. -/
theorem processChannel_no_transfer_of_mem {u : String} (env : String → TransferSteps)
    (vids : List Video) (hist : List String) (h : u ∈ hist) :
    (processChannel env vids hist).2.countP (isTransferFor u) = 0 := by
  induction vids generalizing hist with
  | nil => simp [processChannel]
  | cons v vs ih =>
    by_cases hv : v.url ∈ hist
    · simp [processChannel, hv, List.countP_cons, isTransferFor, ih hist h]
    · have hvu : (v.url == u) = false := by
        simp only [beq_eq_false_iff_ne, ne_eq]
        exact fun he => hv (he ▸ h)
      by_cases hok : transferOk (env v.url)
      · have hmem : u ∈ hist ++ [v.url] := List.mem_append_left _ h
        simp [processChannel, hv, hok, List.countP_cons, isTransferFor, hvu,
          ih (hist ++ [v.url]) hmem]
      · simp [processChannel, hv, hok, List.countP_cons, isTransferFor, hvu, ih hist h]

/-- A URL already in the history is never given to the transfer pipeline by
the per-channel loop. -/
theorem processChannels_no_transfer_of_mem {u : String} (env : String → TransferSteps)
    (chans : List ChannelResult) (hist : List String) (h : u ∈ hist) :
    (processChannels env chans hist).2.countP (isTransferFor u) = 0 := by
  induction chans generalizing hist with
  | nil => simp [processChannels]
  | cons c cs ih =>
    cases c with
    | error msg => simp [processChannels, List.countP_cons, isTransferFor, ih hist h]
    | ok vids =>
      simp [processChannels, List.countP_append,
        processChannel_no_transfer_of_mem env vids hist h,
        ih ((processChannel env vids hist).1) (mem_processChannel_fst env vids hist h)]

/-- A success event counts as a transfer invocation. -/
theorem countP_successFor_le_transferFor (u : String) (es : List Event) :
    es.countP (isSuccessFor u) ≤ es.countP (isTransferFor u) := by
  refine List.countP_mono_left (fun e _ hs => ?_)
  cases e <;> simp_all [isSuccessFor, isTransferFor]

/-- Count accounting for the per-video loop: the multiplicity of a URL in
the history grows by exactly the number of its successful transfers. -/
theorem processChannel_count_fst (env : String → TransferSteps) (vids : List Video)
    (hist : List String) (u : String) :
    (processChannel env vids hist).1.count u
      = hist.count u + (processChannel env vids hist).2.countP (isSuccessFor u) := by
  induction vids generalizing hist with
  | nil => simp [processChannel]
  | cons v vs ih =>
    by_cases hv : v.url ∈ hist
    · simp [processChannel, hv, List.countP_cons, isSuccessFor, ih hist]
    · by_cases hok : transferOk (env v.url)
      · by_cases hvu : v.url = u
        · subst hvu
          simp [processChannel, hv, hok, List.countP_cons, isSuccessFor,
            ih (hist ++ [v.url]), List.count_append]
          omega
        · have hbu : (v.url == u) = false := by simpa using hvu
          simp [processChannel, hv, hok, List.countP_cons, isSuccessFor, hbu,
            ih (hist ++ [v.url]), List.count_append, List.count_cons]
      · simp [processChannel, hv, hok, List.countP_cons, isSuccessFor, ih hist]

/-- Count accounting for the per-channel loop. -/
theorem processChannels_count_fst (env : String → TransferSteps)
    (chans : List ChannelResult) (hist : List String) (u : String) :
    (processChannels env chans hist).1.count u
      = hist.count u + (processChannels env chans hist).2.countP (isSuccessFor u) := by
  induction chans generalizing hist with
  | nil => simp [processChannels]
  | cons c cs ih =>
    cases c with
    | error msg => simp [processChannels, List.countP_cons, isSuccessFor, ih hist]
    | ok vids =>
      simp [processChannels, List.countP_append, ih ((processChannel env vids hist).1),
        processChannel_count_fst env vids hist u]
      omega

/-- In one channel, a URL is successfully transferred at most once. -/
theorem processChannel_successFor_le_one (env : String → TransferSteps)
    (vids : List Video) (hist : List String) (u : String) :
    (processChannel env vids hist).2.countP (isSuccessFor u) ≤ 1 := by
  induction vids generalizing hist with
  | nil => simp [processChannel]
  | cons v vs ih =>
    by_cases hv : v.url ∈ hist
    · simpa [processChannel, hv, List.countP_cons, isSuccessFor] using ih hist
    · by_cases hok : transferOk (env v.url)
      · by_cases hvu : v.url = u
        · subst hvu
          have hz : (processChannel env vs (hist ++ [v.url])).2.countP (isSuccessFor v.url) = 0 := by
            have ht := processChannel_no_transfer_of_mem env vs (hist ++ [v.url])
              (List.mem_append_right hist (List.mem_singleton_self v.url))
            have := countP_successFor_le_transferFor v.url
              (processChannel env vs (hist ++ [v.url])).2
            omega
          simp [processChannel, hv, hok, List.countP_cons, isSuccessFor, hz]
        · have hbu : (v.url == u) = false := by simpa using hvu
          simpa [processChannel, hv, hok, List.countP_cons, isSuccessFor, hbu]
            using ih (hist ++ [v.url])
      · simpa [processChannel, hv, hok, List.countP_cons, isSuccessFor] using ih hist

/-- In a whole run, a URL is successfully transferred at most once: after
the first success it is in the history, and history members are never
transferred again. -/
theorem processChannels_successFor_le_one (env : String → TransferSteps)
    (chans : List ChannelResult) (hist : List String) (u : String) :
    (processChannels env chans hist).2.countP (isSuccessFor u) ≤ 1 := by
  induction chans generalizing hist with
  | nil => simp [processChannels]
  | cons c cs ih =>
    cases c with
    | error msg => simpa [processChannels, List.countP_cons, isSuccessFor] using ih hist
    | ok vids =>
      by_cases h1 : (processChannel env vids hist).2.countP (isSuccessFor u) = 0
      · simpa [processChannels, List.countP_append, h1]
          using ih ((processChannel env vids hist).1)
      · have hmem : u ∈ (processChannel env vids hist).1 := by
          have hc := processChannel_count_fst env vids hist u
          have : 0 < (processChannel env vids hist).1.count u := by omega
          exact List.count_pos_iff.mp this
        have h2 : (processChannels env cs (processChannel env vids hist).1).2.countP
            (isSuccessFor u) = 0 := by
          have ht := processChannels_no_transfer_of_mem env cs
            ((processChannel env vids hist).1) hmem
          have := countP_successFor_le_transferFor u
            (processChannels env cs (processChannel env vids hist).1).2
          omega
        have hle := processChannel_successFor_le_one env vids hist u
        simp [processChannels, List.countP_append, h2]
        omega

/-- The per-video loop preserves freedom from duplicates of the history. -/
theorem processChannel_nodup (env : String → TransferSteps) (vids : List Video)
    (hist : List String) (h : hist.Nodup) : (processChannel env vids hist).1.Nodup := by
  induction vids generalizing hist with
  | nil => simpa [processChannel]
  | cons v vs ih =>
    by_cases hv : v.url ∈ hist
    · simpa [processChannel, hv] using ih hist h
    · by_cases hok : transferOk (env v.url)
      · have happ : (hist ++ [v.url]).Nodup := by
          refine List.Nodup.append h (List.nodup_singleton _) ?_
          intro a ha hb
          rw [List.mem_singleton] at hb
          exact hv (hb ▸ ha)
        simpa [processChannel, hv, hok] using ih (hist ++ [v.url]) happ
      · simpa [processChannel, hv, hok] using ih hist h

/-- The per-channel loop preserves freedom from duplicates of the history. -/
theorem processChannels_nodup (env : String → TransferSteps)
    (chans : List ChannelResult) (hist : List String) (h : hist.Nodup) :
    (processChannels env chans hist).1.Nodup := by
  induction chans generalizing hist with
  | nil => simpa [processChannels]
  | cons c cs ih =>
    cases c with
    | error msg => simpa [processChannels] using ih hist h
    | ok vids =>
      simpa [processChannels]
        using ih ((processChannel env vids hist).1) (processChannel_nodup env vids hist h)

/-- A URL whose transfer pipeline always fails never enters the history in
the per-video loop. -/
theorem processChannel_not_mem_of_not_ok {u : String} (env : String → TransferSteps)
    (vids : List Video) (hist : List String) (hok : transferOk (env u) = false)
    (h : u ∉ hist) : u ∉ (processChannel env vids hist).1 := by
  induction vids generalizing hist with
  | nil => simpa [processChannel]
  | cons v vs ih =>
    by_cases hv : v.url ∈ hist
    · simpa [processChannel, hv] using ih hist h
    · by_cases hko : transferOk (env v.url)
      · have hvu : u ∉ hist ++ [v.url] := by
          intro hm
          rcases List.mem_append.mp hm with hm | hm
          · exact h hm
          · rw [List.mem_singleton] at hm
            rw [hm] at hok
            rw [hok] at hko
            exact Bool.false_ne_true hko
        simpa [processChannel, hv, hko] using ih (hist ++ [v.url]) hvu
      · simpa [processChannel, hv, hko] using ih hist h

/-- A URL whose transfer pipeline always fails never enters the history in
the per-channel loop. -/
theorem processChannels_not_mem_of_not_ok {u : String} (env : String → TransferSteps)
    (chans : List ChannelResult) (hist : List String) (hok : transferOk (env u) = false)
    (h : u ∉ hist) : u ∉ (processChannels env chans hist).1 := by
  induction chans generalizing hist with
  | nil => simpa [processChannels]
  | cons c cs ih =>
    cases c with
    | error msg => simpa [processChannels] using ih hist h
    | ok vids =>
      simpa [processChannels]
        using ih ((processChannel env vids hist).1)
          (processChannel_not_mem_of_not_ok env vids hist hok h)

/-- When every video of a channel is already in the history, the per-video
loop only skips: the history is returned unchanged and every event is a
skip. -/
theorem processChannel_of_forall_mem (env : String → TransferSteps) (vids : List Video)
    (hist : List String) (h : ∀ v ∈ vids, v.url ∈ hist) :
    processChannel env vids hist = (hist, vids.map (fun v => Event.skip v.url)) := by
  induction vids with
  | nil => simp [processChannel]
  | cons v vs ih =>
    have hv : v.url ∈ hist := h v (List.mem_cons_self v vs)
    have hvs : ∀ w ∈ vs, w.url ∈ hist := fun w hw => h w (List.mem_cons_of_mem v hw)
    simp [processChannel, hv, ih hvs]

/-- When every video of every resolved channel is already in the history,
the run leaves the history unchanged and invokes no transfer. -/
theorem processChannels_of_forall_mem (env : String → TransferSteps)
    (chans : List ChannelResult) (hist : List String)
    (h : ∀ vids, Except.ok vids ∈ chans → ∀ v ∈ vids, v.url ∈ hist) :
    (processChannels env chans hist).1 = hist ∧
    (processChannels env chans hist).2.countP isTransfer = 0 := by
  induction chans with
  | nil => simp [processChannels]
  | cons c cs ih =>
    have hcs : ∀ vids, Except.ok vids ∈ cs → ∀ v ∈ vids, v.url ∈ hist :=
      fun vids hm => h vids (List.mem_cons_of_mem c hm)
    cases c with
    | error msg =>
      obtain ⟨h1, h2⟩ := ih hcs
      simp [processChannels, List.countP_cons, isTransfer, h1, h2]
    | ok vids =>
      have hv : ∀ v ∈ vids, v.url ∈ hist := h vids (List.mem_cons_self _ cs)
      obtain ⟨h1, h2⟩ := ih hcs
      rw [processChannels, processChannel_of_forall_mem env vids hist hv]
      refine ⟨h1, ?_⟩
      rw [List.countP_append, h2]
      simp [List.countP_eq_zero, isTransfer]

/-- When the per-video loop reports no failure, every video URL of the
channel ends up in the history. -/
theorem processChannel_mem_of_no_failure (env : String → TransferSteps)
    (vids : List Video) (hist : List String)
    (h : (processChannel env vids hist).2.countP isFailure = 0) :
    ∀ v ∈ vids, v.url ∈ (processChannel env vids hist).1 := by
  induction vids generalizing hist with
  | nil => simp
  | cons v vs ih =>
    by_cases hv : v.url ∈ hist
    · have h' : (processChannel env vs hist).2.countP isFailure = 0 := by
        simpa [processChannel, hv, List.countP_cons, isFailure] using h
      intro w hw
      rcases List.mem_cons.mp hw with hw | hw
      · subst hw
        simpa [processChannel, hv] using mem_processChannel_fst env vs hist ‹w.url ∈ hist›
      · simpa [processChannel, hv] using ih hist h' w hw
    · by_cases hok : transferOk (env v.url)
      · have h' : (processChannel env vs (hist ++ [v.url])).2.countP isFailure = 0 := by
          simpa [processChannel, hv, hok, List.countP_cons, isFailure] using h
        intro w hw
        rcases List.mem_cons.mp hw with hw | hw
        · subst hw
          have : w.url ∈ hist ++ [w.url] :=
            List.mem_append_right hist (List.mem_singleton_self w.url)
          simpa [processChannel, hv, hok]
            using mem_processChannel_fst env vs (hist ++ [w.url]) this
        · simpa [processChannel, hv, hok] using ih (hist ++ [v.url]) h' w hw
      · exfalso
        have : (Event.transferFailure v.url :: (processChannel env vs hist).2).countP
            isFailure = 0 := by
          simpa [processChannel, hv, hok] using h
        simp [List.countP_cons, isFailure] at this

/-- When a run reports no failure, every video URL of every resolved
channel ends up in the final history. -/
theorem processChannels_mem_of_no_failure (env : String → TransferSteps)
    (chans : List ChannelResult) (hist : List String)
    (h : (processChannels env chans hist).2.countP isFailure = 0) :
    ∀ vids, Except.ok vids ∈ chans → ∀ v ∈ vids,
      v.url ∈ (processChannels env chans hist).1 := by
  induction chans generalizing hist with
  | nil => simp
  | cons c cs ih =>
    cases c with
    | error msg =>
      have h' : (processChannels env cs hist).2.countP isFailure = 0 := by
        simpa [processChannels, List.countP_cons, isFailure] using h
      intro vids hm v hv
      rcases List.mem_cons.mp hm with hm | hm
      · exact absurd hm (by simp)
      · simpa [processChannels] using ih hist h' vids hm v hv
    | ok wids =>
      have hsplit : (processChannel env wids hist).2.countP isFailure = 0 ∧
          (processChannels env cs (processChannel env wids hist).1).2.countP
            isFailure = 0 := by
        have := h
        simp only [processChannels, List.countP_append] at this
        omega
      intro vids hm v hv
      rcases List.mem_cons.mp hm with hm | hm
      · have hvids : vids = wids := by
          injection hm
        subst hvids
        have hin := processChannel_mem_of_no_failure env vids hist hsplit.1 v hv
        simpa [processChannels]
          using mem_processChannels_fst env cs ((processChannel env vids hist).1) hin
      · simpa [processChannels]
          using ih ((processChannel env wids hist).1) hsplit.2 vids hm v hv

/-- Processing a concatenation of channel lists processes the second part
from the history produced by the first, concatenating the event traces. -/
theorem processChannels_append (env : String → TransferSteps)
    (xs ys : List ChannelResult) (hist : List String) :
    processChannels env (xs ++ ys) hist =
      ((processChannels env ys (processChannels env xs hist).1).1,
       (processChannels env xs hist).2 ++
         (processChannels env ys (processChannels env xs hist).1).2) := by
  induction xs generalizing hist with
  | nil => simp [processChannels]
  | cons c cs ih =>
    cases c with
    | error msg => simp [processChannels, ih]
    | ok vids => simp [processChannels, ih]

/-- Ordering by resolution permutes the stream list. -/
theorem order_by_resolution_perm (ss : List YTStream) :
    (order_by_resolution ss).Perm ss :=
  List.perm_insertionSort _ ss

/-- Ordering by resolution sorts ascending by resolution. -/
theorem order_by_resolution_sorted (ss : List YTStream) :
    List.Sorted (fun a b => a.resolution ≤ b.resolution) (order_by_resolution ss) := by
  haveI : IsTotal YTStream (fun a b => a.resolution ≤ b.resolution) :=
    ⟨fun a b => Nat.le_total a.resolution b.resolution⟩
  haveI : IsTrans YTStream (fun a b => a.resolution ≤ b.resolution) :=
    ⟨fun a b c hab hbc => Nat.le_trans hab hbc⟩
  exact List.sorted_insertionSort _ ss

/-- When some progressive mp4 stream carries the 480p label, the selection
returns a 480p stream. -/
theorem select_stream_of_exists_480 (ss : List YTStream)
    (h : ∃ s ∈ progressive_mp4 ss, s.resolution = 480) :
    ∃ s, select_stream ss = some s ∧ s.resolution = 480 := by
  obtain ⟨s, hs, h480⟩ := h
  have hsL : s ∈ order_by_resolution (progressive_mp4 ss) :=
    ((order_by_resolution_perm _).mem_iff).mpr hs
  have hf : s ∈ (order_by_resolution (progressive_mp4 ss)).filter
      (fun t => t.resolution == 480) := by
    rw [List.mem_filter]
    exact ⟨hsL, by simp [h480]⟩
  cases hfl : (order_by_resolution (progressive_mp4 ss)).filter
      (fun t => t.resolution == 480) with
  | nil => rw [hfl] at hf; cases hf
  | cons a as =>
    have ha : a ∈ (order_by_resolution (progressive_mp4 ss)).filter
        (fun t => t.resolution == 480) := by
      rw [hfl]; exact List.mem_cons_self a as
    have ha480 : a.resolution = 480 := by
      have := (List.mem_filter.mp ha).2
      simpa using this
    refine ⟨a, ?_, ha480⟩
    simp [select_stream, hfl]

/-- When no progressive mp4 stream carries the 480p label, the selection
returns a member of the filtered set of minimal resolution (the first after
ascending ordering). -/
theorem select_stream_of_no_480 (ss : List YTStream)
    (hne : progressive_mp4 ss ≠ [])
    (h : ∀ s ∈ progressive_mp4 ss, s.resolution ≠ 480) :
    ∃ s, select_stream ss = some s ∧ s ∈ progressive_mp4 ss ∧
      ∀ t ∈ progressive_mp4 ss, s.resolution ≤ t.resolution := by
  have hfl : (order_by_resolution (progressive_mp4 ss)).filter
      (fun t => t.resolution == 480) = [] := by
    rw [List.filter_eq_nil_iff]
    intro a ha
    have hmem : a ∈ progressive_mp4 ss := ((order_by_resolution_perm _).mem_iff).mp ha
    simpa using h a hmem
  cases hL : order_by_resolution (progressive_mp4 ss) with
  | nil =>
    exfalso
    apply hne
    have hp := order_by_resolution_perm (progressive_mp4 ss)
    rw [hL] at hp
    exact (List.Perm.nil_eq hp).symm
  | cons a as =>
    refine ⟨a, ?_, ?_, ?_⟩
    · have hfind : List.find? (fun s => s.resolution == 480) (a :: as) = none := by
        rw [List.find?_eq_none]
        intro x hx
        have hxm : x ∈ progressive_mp4 ss :=
          ((order_by_resolution_perm _).mem_iff).mp (by rw [hL]; exact hx)
        simpa using h x hxm
      simp [select_stream, hL, hfind]
    · have ha : a ∈ order_by_resolution (progressive_mp4 ss) := by
        rw [hL]; exact List.mem_cons_self a as
      exact ((order_by_resolution_perm _).mem_iff).mp ha
    · intro t ht
      have htL : t ∈ order_by_resolution (progressive_mp4 ss) :=
        ((order_by_resolution_perm _).mem_iff).mpr ht
      rw [hL] at htL
      rcases List.mem_cons.mp htL with h1 | htas
      · rw [h1]
      · have hs := order_by_resolution_sorted (progressive_mp4 ss)
        rw [hL] at hs
        exact List.rel_of_sorted_cons hs t htas

/-- Claim C1: for every video URL present in the history loaded at run
start, the sync loop never invokes the transfer pipeline for that URL
during the run: membership in the in-memory history, an exact string
match, makes every occurrence of the URL a skip before any transfer
step. -/
theorem C1_history_url_never_transferred (env : String → TransferSteps)
    (chans : List ChannelResult) (hist0 : List String) (u : String)
    (h : u ∈ hist0) :
    (processChannels env chans hist0).2.countP (isTransferFor u) = 0 :=
  processChannels_no_transfer_of_mem env chans hist0 h

/-- Witness for C1 at a concrete run whose history holds the URL. -/
theorem C1_history_url_never_transferred_witness :
    "https://www.youtube.com/watch?v=A" ∈ ["https://www.youtube.com/watch?v=A"] ∧
    (processChannels (fun _ => ⟨true, true, true, true⟩)
      [Except.ok [⟨"https://www.youtube.com/watch?v=A", "tA"⟩]]
      ["https://www.youtube.com/watch?v=A"]).2.countP
        (isTransferFor "https://www.youtube.com/watch?v=A") = 0 :=
  ⟨by decide, C1_history_url_never_transferred _ _ _ _ (by decide)⟩

/-- Claim C2: with the catalog and the remote upload lists unchanged (the
same channel identifiers and the same resolver results) and the first run
free of transfer failures, a second run started from the history persisted
by the first performs no transfer and persists that history unchanged. -/
theorem C2_second_run_idempotent (ids : List String) (resolve : String → ChannelResult)
    (hist0 : List String) (env : String → TransferSteps)
    (h : (processChannels env (ids.map resolve) hist0).2.countP isFailure = 0) :
    ∃ es, mainRun (some ids) resolve
        (some (processChannels env (ids.map resolve) hist0).1) env
      = Except.ok { persisted := some (processChannels env (ids.map resolve) hist0).1,
                    events := es } ∧
      es.countP isTransfer = 0 := by
  obtain ⟨h1, h2⟩ := processChannels_of_forall_mem env (ids.map resolve)
    (processChannels env (ids.map resolve) hist0).1
    (processChannels_mem_of_no_failure env (ids.map resolve) hist0 h)
  exact ⟨_, by simp [mainRun, h1], h2⟩

/-- Witness for C2 at a concrete pair of runs. -/
theorem C2_second_run_idempotent_witness :
    (processChannels (fun _ => ⟨true, true, true, true⟩)
      ((["c1"].map (fun _ => Except.ok [⟨"uA", "tA"⟩]))) []).2.countP isFailure = 0 ∧
    ∃ es, mainRun (some ["c1"]) (fun _ => Except.ok [⟨"uA", "tA"⟩])
        (some (processChannels (fun _ => ⟨true, true, true, true⟩)
          (["c1"].map (fun _ => Except.ok [⟨"uA", "tA"⟩])) []).1)
        (fun _ => ⟨true, true, true, true⟩)
      = Except.ok { persisted := some (processChannels (fun _ => ⟨true, true, true, true⟩)
                      (["c1"].map (fun _ => Except.ok [⟨"uA", "tA"⟩])) []).1,
                    events := es } ∧
      es.countP isTransfer = 0 :=
  ⟨by decide, C2_second_run_idempotent ["c1"] (fun _ => Except.ok [⟨"uA", "tA"⟩]) []
    (fun _ => ⟨true, true, true, true⟩) (by decide)⟩

/-- Claim C3: a transfer failing at any step (stream resolution, download,
upload, or scratch deletion) leaves the in-memory history exactly as it
was and the loop continues with the next video of the same channel; a URL
whose transfer pipeline fails is never added to the history of the whole
run when it was not already there. -/
theorem C3_failed_transfer_isolated (env : String → TransferSteps)
    (v : Video) (vs : List Video) (hist : List String)
    (hstep : (env v.url).resolveOk = false ∨ (env v.url).downloadOk = false ∨
      (env v.url).uploadOk = false ∨ (env v.url).removeOk = false)
    (hmem : v.url ∉ hist) :
    processChannel env (v :: vs) hist
      = ((processChannel env vs hist).1,
         Event.transferFailure v.url :: (processChannel env vs hist).2) ∧
    ∀ (chans : List ChannelResult) (hist0 : List String),
      v.url ∉ hist0 → v.url ∉ (processChannels env chans hist0).1 := by
  have hok : transferOk (env v.url) = false := by
    rcases hstep with h | h | h | h <;> simp [transferOk, h]
  constructor
  · simp [processChannel, hmem, hok]
  · intro chans hist0 h0
    exact processChannels_not_mem_of_not_ok env chans hist0 hok h0

/-- Witness for C3 at a concrete run whose download step fails. -/
theorem C3_failed_transfer_isolated_witness :
    ((fun _ => (⟨true, false, true, true⟩ : TransferSteps)) "uB").downloadOk = false ∧
    "uB" ∉ ([] : List String) ∧
    "uB" ∉ (processChannels (fun _ => (⟨true, false, true, true⟩ : TransferSteps))
      [Except.ok [⟨"uB", "tB"⟩]] []).1 :=
  ⟨by decide, by decide,
    (C3_failed_transfer_isolated (fun _ => ⟨true, false, true, true⟩) ⟨"uB", "tB"⟩
      [] [] (Or.inr (Or.inl (by decide))) (by decide)).2
      [Except.ok [⟨"uB", "tB"⟩]] [] (by decide)⟩

/-- Claim C4: a failing channel neither prevents the processing of every
later channel nor alters the history entries recorded for earlier
channels: a run whose catalog holds a failing channel between pre and post
ends in the same history as a run on pre and post alone, the history built
from the earlier channels is preserved verbatim as the first entries of
the final history, and the events of the later channels still occur. -/
theorem C4_channel_failure_isolated (env : String → TransferSteps)
    (pre : List ChannelResult) (msg : String) (post : List ChannelResult)
    (hist0 : List String) :
    (processChannels env (pre ++ Except.error msg :: post) hist0).1
        = (processChannels env (pre ++ post) hist0).1 ∧
    (processChannels env (pre ++ Except.error msg :: post) hist0).1.take
        (processChannels env pre hist0).1.length
      = (processChannels env pre hist0).1 ∧
    (processChannels env (pre ++ Except.error msg :: post) hist0).2
      = (processChannels env pre hist0).2 ++ Event.channelError msg ::
        (processChannels env post (processChannels env pre hist0).1).2 := by
  have he : processChannels env (Except.error msg :: post)
      (processChannels env pre hist0).1
      = ((processChannels env post (processChannels env pre hist0).1).1,
         Event.channelError msg ::
           (processChannels env post (processChannels env pre hist0).1).2) := by
    simp [processChannels]
  refine ⟨?_, ?_, ?_⟩
  · rw [processChannels_append, processChannels_append, he]
  · rw [processChannels_append, he]
    obtain ⟨ext, hext⟩ :=
      processChannels_fst_append env post (processChannels env pre hist0).1
    simp only [hext]
    exact List.take_left _ _
  · rw [processChannels_append, he]

/-- Claim C5: the retention sweep issues a delete for a file exactly when
its age strictly exceeds the threshold; a file created exactly
retentionDays before now is kept, and one second older it is deleted. -/
theorem C5_retention_strict_boundary (now days : Int) (f : DriveFile)
    (files : List DriveFile) :
    (f ∈ delete_old_videos now days files ↔
      f ∈ files ∧ f.createdTime < now - days * 86400) ∧
    is_older_than_days (now - days * 86400) now days = false ∧
    is_older_than_days (now - days * 86400 - 1) now days = true := by
  refine ⟨?_, ?_, ?_⟩
  · simp [delete_old_videos, List.mem_filter, is_older_than_days]
  · simp [is_older_than_days]
  · simp only [is_older_than_days, decide_eq_true_eq]
    omega

/-- Claim C6: for a non-empty progressive mp4 stream set, the selection
returns a stream with the 480p label when one exists, and otherwise the
lowest-resolution stream of the filtered set (the first after ascending
ordering); in particular 480p out of 360p, 480p, 720p, and 360p out of
360p, 720p. -/
theorem C6_stream_selection (ss : List YTStream) (hne : progressive_mp4 ss ≠ []) :
    ((∃ s ∈ progressive_mp4 ss, s.resolution = 480) →
      ∃ s, select_stream ss = some s ∧ s.resolution = 480) ∧
    ((∀ s ∈ progressive_mp4 ss, s.resolution ≠ 480) →
      ∃ s, select_stream ss = some s ∧ s ∈ progressive_mp4 ss ∧
        ∀ t ∈ progressive_mp4 ss, s.resolution ≤ t.resolution) ∧
    select_stream [⟨true, "mp4", 360⟩, ⟨true, "mp4", 480⟩, ⟨true, "mp4", 720⟩]
      = some ⟨true, "mp4", 480⟩ ∧
    select_stream [⟨true, "mp4", 360⟩, ⟨true, "mp4", 720⟩]
      = some ⟨true, "mp4", 360⟩ :=
  ⟨select_stream_of_exists_480 ss, select_stream_of_no_480 ss hne, by decide, by decide⟩

/-- Witness for C6 at the concrete three-stream set. -/
theorem C6_stream_selection_witness :
    progressive_mp4 [⟨true, "mp4", 360⟩, ⟨true, "mp4", 480⟩, ⟨true, "mp4", 720⟩] ≠ [] ∧
    ∃ s, select_stream [⟨true, "mp4", 360⟩, ⟨true, "mp4", 480⟩, ⟨true, "mp4", 720⟩]
      = some s ∧ s.resolution = 480 :=
  ⟨by decide,
    (C6_stream_selection [⟨true, "mp4", 360⟩, ⟨true, "mp4", 480⟩, ⟨true, "mp4", 720⟩]
      (by decide)).1 ⟨⟨true, "mp4", 480⟩, by decide, rfl⟩⟩

/-- Claim C7: when the catalog loader returns absent, the run ends at once
after logging: the history file is neither read (a missing history file
does not matter) nor written, and no channel is resolved and no transfer
attempted (the event trace is empty), whatever the resolver and transfer
environment would have done. -/
theorem C7_absent_catalog_ends_run (resolve : String → ChannelResult)
    (histFile : Option (List String)) (env : String → TransferSteps) :
    mainRun none resolve histFile env
      = Except.ok { persisted := none, events := [] } := rfl

/-- Claim C8: the resolver either returns the first n items of the uploads
playlist in API order, each URL built from the video identifier, or an
error: an explanatory one when the channel is not found, one when the
playlist is empty; and an error channel makes the driver skip it and
continue with the rest of the run, never abort. -/
theorem C8_video_resolver (api : YoutubeApi) (channel_id : String) (last_n : Nat)
    (env : String → TransferSteps) :
    (channel_id ≠ "" → api.uploadsPlaylistOf channel_id = none →
      get_latest_video_url api channel_id last_n
        = Except.error ("No channel found with ID: " ++ channel_id)) ∧
    (∀ pid, channel_id ≠ "" → api.uploadsPlaylistOf channel_id = some pid →
      api.playlistItemsList pid last_n = [] →
      get_latest_video_url api channel_id last_n
        = Except.error "Channel has no videos") ∧
    (∀ vids, get_latest_video_url api channel_id last_n = Except.ok vids →
      ∃ pid, api.uploadsPlaylistOf channel_id = some pid ∧
        vids = ((api.playlistItemsList pid last_n).take last_n).map
          (fun it => ("https://www.youtube.com/watch?v=" ++ it.videoId, it.title))) ∧
    (∀ msg (cs : List ChannelResult) (hist : List String),
      (processChannels env (Except.error msg :: cs) hist).1
          = (processChannels env cs hist).1 ∧
      (processChannels env (Except.error msg :: cs) hist).2
          = Event.channelError msg :: (processChannels env cs hist).2) := by
  refine ⟨?_, ?_, ?_, ?_⟩
  · intro hne hnone
    simp [get_latest_video_url, hne, hnone]
  · intro pid hne hsome hempty
    simp [get_latest_video_url, hne, hsome, hempty]
  · intro vids hok
    by_cases hne : channel_id = ""
    · simp [get_latest_video_url, hne] at hok
    · cases hup : api.uploadsPlaylistOf channel_id with
      | none => simp [get_latest_video_url, hne, hup] at hok
      | some pid =>
        refine ⟨pid, rfl, ?_⟩
        by_cases hemp : (api.playlistItemsList pid last_n).isEmpty
        · simp [get_latest_video_url, hne, hup, hemp] at hok
        · by_cases hlen : (api.playlistItemsList pid last_n).length < last_n
          · simp [get_latest_video_url, hne, hup, hemp, hlen] at hok
          · simp [get_latest_video_url, hne, hup, hemp, hlen] at hok
            rw [List.map_take]
            exact hok.symm
  · intro msg cs hist
    constructor <;> simp [processChannels]

/-- Witness for C8 at a concrete API with no matching channel. -/
theorem C8_video_resolver_witness :
    ("chanX" : String) ≠ "" ∧
    get_latest_video_url ⟨fun _ => none, fun _ _ => []⟩ "chanX" 3
      = Except.error "No channel found with ID: chanX" :=
  ⟨by decide, (C8_video_resolver ⟨fun _ => none, fun _ _ => []⟩ "chanX" 3
    (fun _ => ⟨true, true, true, true⟩)).1 (by decide) rfl⟩

/-- Claim C9: the sweep decision reads only the creation time and the
threshold, never the name; in particular when every file named
channels.json is strictly older than the threshold, the sweep removes the
catalog and the whole run takes the absent-catalog path: nothing is
persisted and no transfer happens. -/
theorem C9_sweep_deletes_catalog (now days : Int) (files : List DriveFile)
    (contentOf : String → List String) (resolve : String → ChannelResult)
    (histFile : Option (List String)) (env : String → TransferSteps) :
    (∀ f ∈ files, (f ∈ delete_old_videos now days files ↔
      is_older_than_days f.createdTime now days = true)) ∧
    ((∀ f ∈ files, f.name = "channels.json" →
        is_older_than_days f.createdTime now days = true) →
      fullRun now days files contentOf resolve histFile env
        = Except.ok { persisted := none, events := [] }) := by
  constructor
  · intro f hf
    simp [delete_old_videos, List.mem_filter, hf]
  · intro h
    have hrem : (remaining_files now days files).filter
        (fun f => f.name == "channels.json") = [] := by
      rw [List.filter_eq_nil_iff]
      intro f hf
      have hmem : f ∈ files ∧ is_older_than_days f.createdTime now days = false := by
        rw [remaining_files, List.mem_filter] at hf
        exact ⟨hf.1, by simpa using hf.2⟩
      simp only [beq_iff_eq]
      intro hname
      have hold := h f hmem.1 hname
      rw [hold] at hmem
      simpa using hmem.2
    have hfind : find_channels_file (remaining_files now days files) = none := by
      rw [find_channels_file, hrem]
      rfl
    simp [fullRun, download_channels_list_from_drive, hfind, mainRun]

/-- Witness for C9: a folder holding only an old channels.json. -/
theorem C9_sweep_deletes_catalog_witness :
    (∀ f ∈ [(⟨"idC", "channels.json", 0⟩ : DriveFile)], f.name = "channels.json" →
      is_older_than_days f.createdTime (100 * 86400) 14 = true) ∧
    fullRun (100 * 86400) 14 [⟨"idC", "channels.json", 0⟩] (fun _ => ["ch1"])
      (fun c => Except.ok [⟨"u1", c⟩]) (some []) (fun _ => ⟨true, true, true, true⟩)
      = Except.ok { persisted := none, events := [] } :=
  ⟨by decide, (C9_sweep_deletes_catalog (100 * 86400) 14
    [⟨"idC", "channels.json", 0⟩] (fun _ => ["ch1"]) (fun c => Except.ok [⟨"u1", c⟩])
    (some []) (fun _ => ⟨true, true, true, true⟩)).2 (by decide)⟩

/-- Counterexample to C10 as stated: with the same channel listed twice in
the catalog and a download step that fails, the transfer pipeline is
invoked twice for the same URL within one run, because a failed transfer
does not enter the history and the URL passes the membership check
again. -/
theorem C10_invoked_twice_counterexample :
    ¬ ((processChannels (fun _ => ⟨true, false, true, true⟩)
        [Except.ok [⟨"uX", "tX"⟩], Except.ok [⟨"uX", "tX"⟩]] []).2.countP
          (isTransferFor "uX") ≤ 1) := by decide

/-- Claim C10 (amended): within a single run a URL is successfully
transferred, and hence appended to the in-memory history, at most once:
the multiplicity of a URL in the final history is its initial multiplicity
plus the number of its successful transfers, which never exceeds one; so a
duplicate-free loaded history persists duplicate-free. (A URL whose
transfer failed may be handed to the transfer pipeline again later in the
same run.) -/
theorem C10_amended_no_duplicate_appends (env : String → TransferSteps)
    (chans : List ChannelResult) (hist0 : List String) (u : String) :
    (processChannels env chans hist0).2.countP (isSuccessFor u) ≤ 1 ∧
    (processChannels env chans hist0).1.count u
      = hist0.count u + (processChannels env chans hist0).2.countP (isSuccessFor u) ∧
    (hist0.Nodup → (processChannels env chans hist0).1.Nodup) :=
  ⟨processChannels_successFor_le_one env chans hist0 u,
   processChannels_count_fst env chans hist0 u,
   processChannels_nodup env chans hist0⟩

/-- Witness for C10 (amended) at a concrete run from an empty history. -/
theorem C10_amended_no_duplicate_appends_witness :
    ([] : List String).Nodup ∧
    (processChannels (fun _ => ⟨true, true, true, true⟩)
      [Except.ok [⟨"uY", "tY"⟩]] []).1.Nodup :=
  ⟨by decide, (C10_amended_no_duplicate_appends (fun _ => ⟨true, true, true, true⟩)
    [Except.ok [⟨"uY", "tY"⟩]] [] "uY").2.2 (by decide)⟩

